import Mathlib

/-!
Verification of the Version0 snapshot/restore engine (`src/services/backupManager.ts`
and `src/services/configManager.ts`) against its specification.

The TypeScript source is shallowly embedded: every definition below mirrors one
function, block, or expression of the source, with line references.  External
collaborators (the git command layer, the hosting-service API, timers, prompts)
are modelled as explicit oracle records whose fields give the outcome of each
external call; the engine's control flow over those outcomes is translated
faithfully.
-/

namespace Version0

/-! ## VersionAllocator (`performBackup`, backupManager.ts lines 224-261) -/

/-- Value of a decimal digit character. -/
def digitVal (c : Char) : Nat := c.toNat - 48

/-- Numeric value of a list of decimal digit characters, most significant first
(models JavaScript `parseInt(s, 10)` on an all-digit capture). -/
def natOfDigits (ds : List Char) : Nat := ds.foldl (fun a c => 10 * a + digitVal c) 0

/-- Longest prefix of decimal digits together with the remainder (the greedy
`\d+` of the regex). -/
def spanDigits : List Char → List Char × List Char
  | [] => ([], [])
  | c :: cs =>
    if c.isDigit then
      let p := spanDigits cs
      (c :: p.1, p.2)
    else ([], c :: cs)

/-- Matching `^v(\d+)\.(\d+)` against a branch name (line 239): the captured
`(major, minor)` pair, or `none` when the prefix does not match.  The regex is
anchored only at the start, so trailing characters are ignored. -/
def parseVersion (s : String) : Option (Nat × Nat) :=
  match s.data with
  | 'v' :: rest =>
    let p1 := spanDigits rest
    if p1.1 = [] then none
    else
      match p1.2 with
      | '.' :: r2 =>
        let p2 := spanDigits r2
        if p2.1 = [] then none
        else some (natOfDigits p1.1, natOfDigits p2.1)
      | _ => none
  | _ => none

/-- One iteration of the `existingBranches.forEach` loop (lines 237-251).  The
state is `(maxMajor, maxMinor)`; `maxMinor` is an integer because it starts at
`-1` ("no version seen yet"). -/
def allocStep (st : Nat × Int) (p : Nat × Nat) : Nat × Int :=
  if p.1 > st.1 then (p.1, (p.2 : Int))
  else if p.1 = st.1 ∧ (p.2 : Int) > st.2 then (st.1, (p.2 : Int))
  else st

/-- The version allocation of `performBackup` (lines 224-261): fold the parsed
branch names starting from `(0, -1)`; if a version was seen the next version is
`(maxMajor, maxMinor + 1)`, otherwise the default `1.0`. -/
def computeNextVersion (branches : List String) : Nat × Nat :=
  let st := (branches.filterMap parseVersion).foldl allocStep (0, -1)
  if st.2 = -1 then (1, 0) else (st.1, (st.2 + 1).toNat)

/-- Specification-side reading: the largest major among the parsed versions
(`0` when there are none). -/
def specMaxMajor (ms : List (Nat × Nat)) : Nat := (ms.map Prod.fst).foldl max 0

/-- Specification-side reading: the largest minor among parsed versions that
share the largest major. -/
def specMaxMinor (ms : List (Nat × Nat)) : Nat :=
  ((ms.filter fun p => p.1 = specMaxMajor ms).map Prod.snd).foldl max 0

/-- `b` is at least `a` in the (major, then minor) order used by the allocator. -/
def lexGe (a b : Nat × Int) : Prop := b.1 < a.1 ∨ (a.1 = b.1 ∧ b.2 ≤ a.2)

theorem lexGe_refl (a : Nat × Int) : lexGe a a := Or.inr ⟨rfl, le_refl _⟩

theorem lexGe_trans {a b c : Nat × Int} (h1 : lexGe a b) (h2 : lexGe b c) : lexGe a c := by
  rcases h1 with h1 | ⟨h1, h1'⟩ <;> rcases h2 with h2 | ⟨h2, h2'⟩ <;>
    [exact Or.inl (lt_trans h2 h1); exact Or.inl (h2 ▸ h1);
     exact Or.inl (h1 ▸ h2); exact Or.inr ⟨h1.trans h2, le_trans h2' h1'⟩]

theorem allocStep_cases (st : Nat × Int) (p : Nat × Nat) :
    allocStep st p = st ∨ allocStep st p = (p.1, (p.2 : Int)) := by
  unfold allocStep
  split
  · exact Or.inr rfl
  · split
    · rename_i h
      exact Or.inr (by rw [h.1])
    · exact Or.inl rfl

theorem lexGe_allocStep_left (st : Nat × Int) (p : Nat × Nat) : lexGe (allocStep st p) st := by
  unfold allocStep
  split
  · exact Or.inl (by assumption)
  · split
    · rename_i h
      exact Or.inr ⟨h.1.symm ▸ rfl, le_of_lt h.2⟩
    · exact lexGe_refl st

theorem lexGe_allocStep_right (st : Nat × Int) (p : Nat × Nat) :
    lexGe (allocStep st p) (p.1, (p.2 : Int)) := by
  unfold allocStep
  split
  · exact lexGe_refl _
  · split
    · rename_i h
      exact Or.inr ⟨h.1.symm, le_refl _⟩
    · rename_i h1 h2
      rcases Nat.lt_or_ge p.1 st.1 with h | h
      · exact Or.inl h
      · have hp1 : p.1 = st.1 := le_antisymm (le_of_not_lt h1) h
        refine Or.inr ⟨hp1.symm, ?_⟩
        by_contra hc
        exact h2 ⟨hp1, lt_of_not_le hc⟩

/-- The fold of the allocator loop: its result is either the initial state or one
of the parsed pairs, and it dominates the initial state and every parsed pair in
the (major, minor) order. -/
theorem allocFold_spec (ms : List (Nat × Nat)) :
    ∀ st : Nat × Int,
      (ms.foldl allocStep st = st ∨ ∃ p ∈ ms, ms.foldl allocStep st = (p.1, (p.2 : Int))) ∧
      lexGe (ms.foldl allocStep st) st ∧
      ∀ p ∈ ms, lexGe (ms.foldl allocStep st) (p.1, (p.2 : Int)) := by
  induction ms with
  | nil => intro st; exact ⟨Or.inl rfl, lexGe_refl st, fun p hp => absurd hp (List.not_mem_nil p)⟩
  | cons q ms ih =>
    intro st
    have hfold : (q :: ms).foldl allocStep st = ms.foldl allocStep (allocStep st q) :=
      List.foldl_cons ..
    obtain ⟨hmem, hinit, hall⟩ := ih (allocStep st q)
    refine ⟨?_, ?_, ?_⟩
    · rw [hfold]
      rcases hmem with h | ⟨p, hp, h⟩
      · rcases allocStep_cases st q with h' | h'
        · exact Or.inl (h.trans h')
        · exact Or.inr ⟨q, List.mem_cons_self q ms, h.trans h'⟩
      · exact Or.inr ⟨p, List.mem_cons_of_mem q hp, h⟩
    · rw [hfold]
      exact lexGe_trans hinit (lexGe_allocStep_left st q)
    · intro p hp
      rw [hfold]
      rcases List.mem_cons.mp hp with h | h
      · subst h
        exact lexGe_trans hinit (lexGe_allocStep_right st p)
      · exact hall p h

theorem foldl_max_le_init (l : List Nat) : ∀ a : Nat, a ≤ l.foldl max a := by
  induction l with
  | nil => intro a; exact le_refl a
  | cons x l ih =>
    intro a
    exact le_trans (le_max_left a x) (ih (max a x))

theorem foldl_max_le_of_mem (l : List Nat) : ∀ a : Nat, ∀ x ∈ l, x ≤ l.foldl max a := by
  induction l with
  | nil => intro a x hx; exact absurd hx (List.not_mem_nil x)
  | cons y l ih =>
    intro a x hx
    rcases List.mem_cons.mp hx with h | h
    · subst h
      exact le_trans (le_max_right a x) (foldl_max_le_init l (max a x))
    · exact ih (max a y) x h

theorem foldl_max_mem (l : List Nat) : ∀ a : Nat, l.foldl max a = a ∨ l.foldl max a ∈ l := by
  induction l with
  | nil => intro a; exact Or.inl rfl
  | cons x l ih =>
    intro a
    rcases ih (max a x) with h | h
    · rcases max_cases a x with ⟨he, _⟩ | ⟨he, _⟩
      · exact Or.inl (by rw [List.foldl_cons, h, he])
      · exact Or.inr (by rw [List.foldl_cons, h, he]; exact List.mem_cons_self x l)
    · exact Or.inr (List.mem_cons_of_mem x (by rw [List.foldl_cons]; exact h))

/-- `foldl max 0` computes the maximum of a list that contains an upper bound. -/
theorem foldl_max_eq {l : List Nat} {m : Nat} (hm : m ∈ l) (hub : ∀ x ∈ l, x ≤ m) :
    l.foldl max 0 = m := by
  have h1 : m ≤ l.foldl max 0 := foldl_max_le_of_mem l 0 m hm
  rcases foldl_max_mem l 0 with h | h
  · omega
  · exact le_antisymm (hub _ h) h1

/-- With at least one parsed version the allocator fold computes exactly the
largest major and, among pairs sharing it, the largest minor. -/
theorem allocFold_eq (ms : List (Nat × Nat)) (hne : ms ≠ []) :
    ms.foldl allocStep (0, -1) = (specMaxMajor ms, (specMaxMinor ms : Int)) := by
  obtain ⟨hmem, _, hall⟩ := allocFold_spec ms (0, -1)
  rcases hmem with h | ⟨q, hq, h⟩
  · obtain ⟨p0, hp0⟩ := List.exists_mem_of_ne_nil ms hne
    have := hall p0 hp0
    rw [h] at this
    rcases this with h' | ⟨_, h'⟩
    · exact absurd h' (Nat.not_lt_zero _)
    · change (p0.2 : Int) ≤ -1 at h'
      omega
  · have hfst : specMaxMajor ms = q.1 := by
      apply foldl_max_eq
      · exact List.mem_map.mpr ⟨q, hq, rfl⟩
      · intro x hx
        obtain ⟨p, hp, rfl⟩ := List.mem_map.mp hx
        have := hall p hp
        rw [h] at this
        rcases this with h' | ⟨h', _⟩ <;> omega
    have hsnd : specMaxMinor ms = q.2 := by
      apply foldl_max_eq
      · exact List.mem_map.mpr ⟨q, List.mem_filter.mpr ⟨hq, by simp [hfst]⟩, rfl⟩
      · intro x hx
        obtain ⟨p, hp, rfl⟩ := List.mem_map.mp hx
        obtain ⟨hpm, hpA⟩ := List.mem_filter.mp hp
        have hpA : p.1 = q.1 := by
          have := of_decide_eq_true hpA
          omega
        have := hall p hpm
        rw [h] at this
        rcases this with h' | ⟨_, h'⟩
        · omega
        · change (p.2 : Int) ≤ (q.2 : Int) at h'
          exact_mod_cast h'
    rw [h, hfst, hsnd]

/-- C1: for every list of existing remote branch names, the version allocation in
`performBackup` yields `1.0` iff no name matches `^v(\d+)\.(\d+)`; otherwise it
yields `{maxMajor}.{maxMinor+1}` where `maxMajor` is the largest major among
matching names and `maxMinor` the largest minor among names sharing that major;
in particular `["v1.0/...", "v1.2/...", "v2.0/..."]` yields `2.1`. -/
theorem versionAllocator_correct (bs : List String) :
    (computeNextVersion bs = (1, 0) ↔ bs.filterMap parseVersion = []) ∧
    (bs.filterMap parseVersion ≠ [] →
      computeNextVersion bs =
        (specMaxMajor (bs.filterMap parseVersion),
         specMaxMinor (bs.filterMap parseVersion) + 1)) ∧
    computeNextVersion
        ["v1.0/2024-01-01_00-00-00", "v1.2/2024-02-01_00-00-00", "v2.0/2024-03-01_00-00-00"]
      = (2, 1) := by
  have hstep : bs.filterMap parseVersion ≠ [] →
      computeNextVersion bs =
        (specMaxMajor (bs.filterMap parseVersion),
         specMaxMinor (bs.filterMap parseVersion) + 1) := by
    intro hne
    unfold computeNextVersion
    rw [allocFold_eq _ hne]
    have hne' : ((specMaxMinor (bs.filterMap parseVersion) : Int)) ≠ -1 := by omega
    simp only [ne_eq, hne', not_false_eq_true, if_neg, Prod.mk.injEq, true_and]
    omega
  refine ⟨⟨?_, ?_⟩, hstep, by decide⟩
  · intro h
    by_contra hne
    rw [hstep hne] at h
    have := congrArg Prod.snd h
    simp at this
  · intro h
    unfold computeNextVersion
    rw [h]
    rfl

/-- Witness for `versionAllocator_correct`: the non-empty branch of the claim at a
concrete branch list. -/
theorem versionAllocator_correct_witness :
    computeNextVersion ["v3.4/2024-05-05_00-00-00"] =
      (specMaxMajor (["v3.4/2024-05-05_00-00-00"].filterMap parseVersion),
       specMaxMinor (["v3.4/2024-05-05_00-00-00"].filterMap parseVersion) + 1) :=
  (versionAllocator_correct ["v3.4/2024-05-05_00-00-00"]).2.1 (by decide)

/-! ## BackupScheduler (`ConfigManager.getBackupInterval`, configManager.ts lines
40-42, and `BackupManager.start`, backupManager.ts lines 78-98) -/

/-- `getBackupInterval`: `configuration.get<number>('backupInterval') || 10`.
`raw` is the value returned by `configuration.get` (`none` models `undefined`);
the JavaScript `||` makes both `undefined` and `0` fall back to `10`. -/
def getBackupInterval (raw : Option Int) : Int :=
  match raw with
  | none => 10
  | some v => if v = 0 then 10 else v

/-- `start` (lines 78-91): stop any existing timer, then create a repeating timer
with period `intervalMinutes * 60 * 1000` milliseconds only when the interval is
positive.  The result is the period of the timer that exists after `start`. -/
def startScheduler (raw : Option Int) : Option Int :=
  let intervalMinutes := getBackupInterval raw
  if intervalMinutes > 0 then some (intervalMinutes * 60 * 1000) else none

/-- C2 counterexample: a configured backup interval of `0` does NOT disable
scheduling — `getBackupInterval` coerces it to the fallback `10`, so `start`
creates a repeating 10-minute timer. -/
theorem scheduler_zero_interval_counterexample :
    startScheduler (some 0) = some 600000 ∧ startScheduler (some 0) ≠ none := by
  constructor <;> decide

/-- C2 (amended): a negative configured interval disables scheduled snapshots
(`start` creates no timer), while a configured interval of zero falls back to the
default of 10 minutes and does create a timer. -/
theorem scheduler_disable_semantics (v : Int) (hneg : v < 0) :
    startScheduler (some v) = none ∧ startScheduler (some 0) = some 600000 := by
  constructor
  · unfold startScheduler getBackupInterval
    have h0 : ¬(v = 0) := by omega
    simp only [h0, if_false]
    rw [if_neg (by omega)]
  · decide

/-- Witness for `scheduler_disable_semantics` at interval `-5`. -/
theorem scheduler_disable_semantics_witness :
    startScheduler (some (-5)) = none ∧ startScheduler (some 0) = some 600000 :=
  scheduler_disable_semantics (-5) (by decide)

/-! ## SnapshotNamer (`performBackup`, backupManager.ts lines 263-276) -/

/-- Branch-name construction (line 264): `v${nextVersion}/${timestamp}` with
`nextVersion = `${maxMajor}.${maxMinor + 1}``. -/
def mkBranchName (major minor : Nat) (timestamp : String) : String :=
  "v" ++ Nat.repr major ++ "." ++ Nat.repr minor ++ "/" ++ timestamp

/-- Commit-message construction (lines 265-276): the base message
`Version0 Backup: v${nextVersion} - ${timestamp}`, with ` - ${note}` appended only
for a manual backup whose note prompt returned a truthy (non-empty) string. -/
def mkCommitMessage (major minor : Nat) (timestamp : String) (isManual : Bool)
    (note : Option String) : String :=
  let base := "Version0 Backup: v" ++ Nat.repr major ++ "." ++ Nat.repr minor ++ " - " ++ timestamp
  if isManual then
    match note with
    | some n => if n = "" then base else base ++ " - " ++ n
    | none => base
  else base

/-- C8 counterexample: the commit message produced by `performBackup` is prefixed
`Version0 Backup: v...`, not `Snapshot ...` as the claim states — at version 1.0
and a concrete timestamp the two differ. -/
theorem snapshotNamer_counterexample :
    mkCommitMessage 1 0 "2024-01-01_00-00-00" false none
        = "Version0 Backup: v1.0 - 2024-01-01_00-00-00" ∧
      mkCommitMessage 1 0 "2024-01-01_00-00-00" false none
        ≠ "Snapshot 1.0 - 2024-01-01_00-00-00" := by
  constructor <;> decide

/-- C8 (amended): for every snapshot the branch name is `v{version}/{timestamp}`
and the commit message is `Version0 Backup: v{version} - {timestamp}`, with
` - {note}` appended exactly when the snapshot is manual and a non-empty note was
supplied; identical inputs always yield identical name and message (the
constructions are pure functions, so determinism is by definition). -/
theorem snapshotNamer_correct (major minor : Nat) (ts note : String) (hn : note ≠ "") :
    mkBranchName major minor ts
        = "v" ++ Nat.repr major ++ "." ++ Nat.repr minor ++ "/" ++ ts ∧
      mkCommitMessage major minor ts false (some note)
        = "Version0 Backup: v" ++ Nat.repr major ++ "." ++ Nat.repr minor ++ " - " ++ ts ∧
      mkCommitMessage major minor ts false none = mkCommitMessage major minor ts false (some note) ∧
      mkCommitMessage major minor ts true none = mkCommitMessage major minor ts false (some note) ∧
      mkCommitMessage major minor ts true (some "") = mkCommitMessage major minor ts false none ∧
      mkCommitMessage major minor ts true (some note)
        = mkCommitMessage major minor ts false (some note) ++ " - " ++ note := by
  refine ⟨rfl, rfl, rfl, rfl, rfl, ?_⟩
  unfold mkCommitMessage
  simp [hn]

/-- Witness for `snapshotNamer_correct` at a concrete version, timestamp and note. -/
theorem snapshotNamer_correct_witness :
    mkCommitMessage 2 1 "2024-03-01_12-00-00" true (some "refactor")
      = mkCommitMessage 2 1 "2024-03-01_12-00-00" false (some "refactor") ++ " - " ++ "refactor" :=
  (snapshotNamer_correct 2 1 "2024-03-01_12-00-00" "refactor" (by decide)).2.2.2.2.2

/-! ## RemoteBinder (`performBackup` lines 204-222, `restoreFromBackup` lines
410-419, backupManager.ts) -/

/-- `BackupManager.BACKUP_REMOTE_NAME` (line 15): the engine-reserved remote alias. -/
def backupRemoteName : String := "version0_backup_target"

/-- One entry of `git.getRemotes(true)`: a remote name with its fetch and push URLs. -/
structure Remote where
  name : String
  fetchUrl : String
  pushUrl : String
deriving DecidableEq

/-- Result of the remote-configuration step: the remote list afterwards and
whether `removeRemote` / `addRemote` were invoked. -/
structure RemoteConfigResult where
  remotes : List Remote
  didRemove : Bool
  didAdd : Bool
deriving DecidableEq

/-- Continuation of the remote-configuration step once the dedicated remote has
been looked up: when present with the wrong checked URL, `removeRemote` then
`addRemote`; when present with the right URL, nothing; when absent, `addRemote`.
`git remote add` registers the URL for both fetch and push. -/
def remoteBindAux (checkPush : Bool) (targetRepoUrl : String) (remotes : List Remote) :
    Option Remote → RemoteConfigResult
  | some r =>
    if (if checkPush then r.pushUrl else r.fetchUrl) ≠ targetRepoUrl then
      { remotes := (remotes.filter fun x => x.name != backupRemoteName)
          ++ [⟨backupRemoteName, targetRepoUrl, targetRepoUrl⟩],
        didRemove := true, didAdd := true }
    else { remotes := remotes, didRemove := false, didAdd := false }
  | none =>
    { remotes := remotes ++ [⟨backupRemoteName, targetRepoUrl, targetRepoUrl⟩],
      didRemove := false, didAdd := true }

/-- The remote-configuration step: look up the dedicated remote among
`git.getRemotes(true)` and reconcile it with the target URL.  The checked URL is
the push URL in `performBackup` (line 209) and the fetch URL in
`restoreFromBackup` (line 413). -/
def configureBackupRemote (checkPush : Bool) (targetRepoUrl : String)
    (remotes : List Remote) : RemoteConfigResult :=
  remoteBindAux checkPush targetRepoUrl remotes
    (remotes.find? fun r => r.name == backupRemoteName)

theorem find?_eq_head?_filter (p : Remote → Bool) :
    ∀ l : List Remote, l.find? p = (l.filter p).head? := by
  intro l
  induction l with
  | nil => rfl
  | cons a l ih =>
    cases h : p a
    · rw [List.find?_cons_of_neg _ (by simp [h]), List.filter_cons_of_neg (by simp [h]), ih]
    · rw [List.find?_cons_of_pos _ h, List.filter_cons_of_pos h, List.head?_cons]

/-- With git's invariant that remote names are unique, filtering for the alias of
a member carrying it yields exactly that member. -/
theorem filter_alias_singleton {rs : List Remote} {r : Remote}
    (hnd : (rs.map Remote.name).Nodup) (hr : r ∈ rs) (hname : r.name = backupRemoteName) :
    rs.filter (fun x => x.name == backupRemoteName) = [r] := by
  induction rs with
  | nil => cases hr
  | cons a rs ih =>
    rw [List.map_cons, List.nodup_cons] at hnd
    rcases List.mem_cons.mp hr with h | h
    · subst h
      rw [List.filter_cons_of_pos (by simp [hname])]
      have hnil : rs.filter (fun x => x.name == backupRemoteName) = [] := by
        rw [List.filter_eq_nil_iff]
        intro x hx
        simp only [beq_iff_eq]
        intro hxn
        exact hnd.1 (List.mem_map.mpr ⟨x, hx, hxn.trans hname.symm⟩)
      rw [hnil]
    · have haname : a.name ≠ backupRemoteName := by
        intro han
        exact hnd.1 (by
          rw [han, ← hname]
          exact List.mem_map.mpr ⟨r, h, rfl⟩)
      rw [List.filter_cons_of_neg (by simp [haname])]
      exact ih hnd.2 h

/-- One bind leaves exactly one alias entry, pushing to the bound URL, and
preserves uniqueness of remote names. -/
theorem configureBackupRemote_spec (url : String) (rs : List Remote)
    (hnd : (rs.map Remote.name).Nodup) :
    ((configureBackupRemote true url rs).remotes.filter
        (fun x => x.name == backupRemoteName)).map Remote.pushUrl = [url] ∧
      ((configureBackupRemote true url rs).remotes.map Remote.name).Nodup := by
  unfold configureBackupRemote
  cases hf : rs.find? (fun r => r.name == backupRemoteName) with
  | none =>
    have hnone : ∀ x ∈ rs, (x.name == backupRemoteName) = false := by
      intro x hx
      simpa using List.find?_eq_none.mp hf x hx
    have hnil : rs.filter (fun x => x.name == backupRemoteName) = [] := by
      rw [List.filter_eq_nil_iff]
      intro x hx
      simp [hnone x hx]
    simp only [remoteBindAux]
    constructor
    · simp only [List.filter_append, hnil, List.nil_append]
      rw [List.filter_cons_of_pos (by simp [backupRemoteName])]
      rfl
    · simp only [List.map_append]
      rw [List.nodup_append]
      refine ⟨hnd, List.nodup_singleton _, ?_⟩
      intro x hx hx'
      obtain ⟨y, hy, rfl⟩ := List.mem_map.mp hx
      simp only [List.map_cons, List.map_nil, List.mem_singleton] at hx'
      have := hnone y hy
      rw [hx'] at this
      simp at this
  | some r =>
    have hrname : r.name = backupRemoteName := by
      have := List.find?_some hf
      simpa using this
    have hrmem : r ∈ rs := List.mem_of_find?_eq_some hf
    simp only [remoteBindAux, if_true]
    by_cases hurl : r.pushUrl ≠ url
    · rw [if_pos hurl]
      have hnil : (rs.filter fun x => x.name != backupRemoteName).filter
          (fun x => x.name == backupRemoteName) = [] := by
        rw [List.filter_eq_nil_iff]
        intro x hx
        have := (List.mem_filter.mp hx).2
        simp only [bne_iff_ne, ne_eq] at this
        simp [this]
      constructor
      · simp only [List.filter_append, hnil, List.nil_append]
        rw [List.filter_cons_of_pos (by simp [backupRemoteName])]
        rfl
      · simp only [List.map_append]
        rw [List.nodup_append]
        refine ⟨?_, List.nodup_singleton _, ?_⟩
        · exact hnd.sublist ((List.filter_sublist rs).map _)
        · intro x hx hx'
          obtain ⟨y, hy, rfl⟩ := List.mem_map.mp hx
          simp only [List.map_cons, List.map_nil, List.mem_singleton] at hx'
          have := (List.mem_filter.mp hy).2
          simp only [bne_iff_ne, ne_eq] at this
          exact this hx'
    · rw [if_neg hurl]
      push_neg at hurl
      constructor
      · rw [filter_alias_singleton hnd hrmem hrname]
        simp [hurl]
      · exact hnd

/-- C7: binding the backup remote is idempotent.  Under git's invariant that
remote names are unique, after one bind exactly one remote entry carries the
reserved alias `version0_backup_target` and its push URL is the destination URL;
a second bind with the same URL performs no remove and no add and leaves the
remote list unchanged, so the single entry persists with that URL both times. -/
theorem remoteBinder_idempotent (url : String) (rs : List Remote)
    (hnd : (rs.map Remote.name).Nodup) :
    ((configureBackupRemote true url rs).remotes.filter
        (fun x => x.name == backupRemoteName)).map Remote.pushUrl = [url] ∧
      configureBackupRemote true url (configureBackupRemote true url rs).remotes
        = ⟨(configureBackupRemote true url rs).remotes, false, false⟩ := by
  obtain ⟨hone, hnd1⟩ := configureBackupRemote_spec url rs hnd
  refine ⟨hone, ?_⟩
  set rs1 := (configureBackupRemote true url rs).remotes with hrs1
  obtain ⟨e, he⟩ : ∃ e, rs1.filter (fun x => x.name == backupRemoteName) = [e] := by
    rcases hl : rs1.filter (fun x => x.name == backupRemoteName) with _ | ⟨e, tl⟩
    · rw [hl] at hone
      simp at hone
    · rcases tl with _ | ⟨e', tl'⟩
      · exact ⟨e, hl⟩
      · rw [hl] at hone
        have := congrArg List.length hone
        simp at this
  have hepush : e.pushUrl = url := by
    rw [he] at hone
    simpa using hone
  unfold configureBackupRemote
  rw [find?_eq_head?_filter, he, List.head?_cons]
  simp [remoteBindAux, hepush]

/-- Witness for `remoteBinder_idempotent` on a concrete remote list. -/
theorem remoteBinder_idempotent_witness :
    ((configureBackupRemote true "https://github.com/me/backup.git"
          [⟨"origin", "git@github.com:me/app.git", "git@github.com:me/app.git"⟩]).remotes.filter
        (fun x => x.name == backupRemoteName)).map Remote.pushUrl
        = ["https://github.com/me/backup.git"] ∧
      configureBackupRemote true "https://github.com/me/backup.git"
          (configureBackupRemote true "https://github.com/me/backup.git"
            [⟨"origin", "git@github.com:me/app.git", "git@github.com:me/app.git"⟩]).remotes
        = ⟨(configureBackupRemote true "https://github.com/me/backup.git"
              [⟨"origin", "git@github.com:me/app.git", "git@github.com:me/app.git"⟩]).remotes,
           false, false⟩ :=
  remoteBinder_idempotent "https://github.com/me/backup.git"
    [⟨"origin", "git@github.com:me/app.git", "git@github.com:me/app.git"⟩] (by decide)

/-! ## SnapshotCommitter (`performBackup`, backupManager.ts lines 278-394)

The git command layer is an external collaborator; a `BackupOracle` fixes the
outcome of each git call (`none` = success, `some msg` = the thrown error's
message), and the engine's control flow over those outcomes is translated
directly.  The visible effects are accumulated as a list of `GitEvent`s. -/

/-- A git operation actually performed (in order) during a backup or restore. -/
inductive GitEvent where
  | checkoutDefault (branch : String)
  | createBranch (branch : String)
  | switchBranch (branch : String)
  | add (paths : List String)
  | commit (message : String)
  | push (remote branch : String)
  | fetch (remote : String)
  | stashPush (label : String)
  | forcedCheckout (ref : String)
  | stashPop
deriving DecidableEq

/-- Local repository state threaded through a backup run. -/
structure BackupState where
  localBranches : List String
  events : List GitEvent
deriving DecidableEq

/-- Outcome of the try block of `performBackup`: success with the final branch
name, or the rethrown error, each with the state reached. -/
inductive BackupResult where
  | ok (branchName : String) (st : BackupState)
  | err (msg : String) (st : BackupState)
deriving DecidableEq

/-- Outcomes of the git calls made by `performBackup`. -/
structure BackupOracle where
  /-- `status.current` at line 280 (`none` = no current branch). -/
  statusCurrent : Option String
  /-- outcome of `git.checkout('main')` (line 286). -/
  checkoutMainErr : Option String
  /-- outcome of `git.checkout('master')` (line 291). -/
  checkoutMasterErr : Option String
  /-- outcome of `git.checkoutLocalBranch(b)` (lines 304, 318). -/
  checkoutLocalBranchErr : String → Option String
  /-- outcome of `git.checkout(b)` (line 312). -/
  checkoutErr : String → Option String
  /-- the paths of `statusSummary.files` (line 347). -/
  statusFiles : List String
  /-- outcome of `git.add(batch)` (line 365). -/
  addErr : List String → Option String
  /-- outcome of `git.commit(message, allow-empty)` (line 374). -/
  commitErr : Option String
  /-- outcome of `git.push(remote, branch, set-upstream)` (line 377). -/
  pushErr : Option String
  /-- outcome of `git.fetch(remote)` (line 379). -/
  fetchErr : Option String
  /-- the value of `Math.floor(Math.random() * 1000)` (line 316). -/
  rand : Nat

/-- `l` starts with `sub`. -/
def startsWithSeq : List Char → List Char → Bool
  | _, [] => true
  | [], _ :: _ => false
  | c :: cs, d :: ds => c == d && startsWithSeq cs ds

/-- `sub` occurs contiguously in `l` (JavaScript `String.prototype.includes`). -/
def containsSeq (sub : List Char) : List Char → Bool
  | [] => sub.isEmpty
  | c :: cs => startsWithSeq (c :: cs) sub || containsSeq sub cs

/-- Batches of at most 50 paths (`batchSize = 50`, lines 361-366); the first
argument is recursion fuel, instantiated with the list length (the fallback for
exhausted fuel is unreachable since each step consumes at least one element). -/
def chunksFuel : Nat → List String → List (List String)
  | _, [] => []
  | 0, l => [l]
  | fuel + 1, x :: xs => (x :: xs.take 49) :: chunksFuel fuel (xs.drop 49)

/-- The batches `filesToAdd.slice(i, i + 50)` of the add loop. -/
def chunks50 (l : List String) : List (List String) := chunksFuel l.length l

/-- `git.add` on each batch in order; the first failing batch throws, the error
is caught at line 369 and swallowed, so later batches are skipped and the run
continues to the commit. -/
def stageBatches (addErr : List String → Option String) : List (List String) → List GitEvent
  | [] => []
  | b :: bs =>
    match addErr b with
    | some _ => []
    | none => GitEvent.add b :: stageBatches addErr bs

/-- The staging step (lines 346-372): with zero changed files nothing is staged
and the run proceeds to an empty commit; otherwise paths containing `voicetype`
are excluded and the rest is added in batches of 50. -/
def stagingEvents (o : BackupOracle) : List GitEvent :=
  if o.statusFiles.length = 0 then []
  else
    let filesToAdd := o.statusFiles.filter fun p => !(containsSeq "voicetype".data p.data)
    if filesToAdd.length > 0 then stageBatches o.addErr (chunks50 filesToAdd) else []

/-- Lines 280-298: when `status.current` is empty, try to check out `main`, then
`master`; when both fail the run throws. -/
def defaultBranchStep (o : BackupOracle) (st : BackupState) : Except String BackupState :=
  match o.statusCurrent with
  | some _ => .ok st
  | none =>
    match o.checkoutMainErr with
    | none => .ok { st with events := st.events ++ [.checkoutDefault "main"] }
    | some _ =>
      match o.checkoutMasterErr with
      | none => .ok { st with events := st.events ++ [.checkoutDefault "master"] }
      | some _ => .error ("Backup failed: Git is in a new repository state and could not create a default branch. Please commit manually once or ensure 'main' or 'master' can be created.")

/-- Lines 302-328: create the snapshot branch; when creation reports
`already exists`, switch to it; when the switch also fails, create an
alternative branch with a random numeric suffix.  Returns the branch actually
used for the rest of the run. -/
def createBranchStep (o : BackupOracle) (bn0 : String) (st : BackupState) :
    Except String (String × BackupState) :=
  match o.checkoutLocalBranchErr bn0 with
  | none =>
    .ok (bn0, ⟨st.localBranches ++ [bn0], st.events ++ [.createBranch bn0]⟩)
  | some m =>
    if containsSeq "already exists".data m.data then
      match o.checkoutErr bn0 with
      | none => .ok (bn0, ⟨st.localBranches, st.events ++ [.switchBranch bn0]⟩)
      | some _ =>
        match o.checkoutLocalBranchErr (bn0 ++ "-" ++ Nat.repr o.rand) with
        | none =>
          .ok (bn0 ++ "-" ++ Nat.repr o.rand,
            ⟨st.localBranches ++ [bn0 ++ "-" ++ Nat.repr o.rand],
             st.events ++ [.createBranch (bn0 ++ "-" ++ Nat.repr o.rand)]⟩)
        | some m2 => .error m2
    else .error m

/-- Lines 374-383: commit (allowing empty), push the branch to the dedicated
remote with upstream tracking, and fetch from that remote. -/
def commitPushFetch (o : BackupOracle) (bn msg : String) (st : BackupState) : BackupResult :=
  match o.commitErr with
  | some m => .err ("Git operation failed: " ++ m) st
  | none =>
    match o.pushErr with
    | some m => .err ("Git operation failed: " ++ m)
        { st with events := st.events ++ [.commit msg] }
    | none =>
      match o.fetchErr with
      | some m => .err ("Git operation failed: " ++ m)
          { st with events := st.events ++ [.commit msg, .push backupRemoteName bn] }
      | none => .ok bn
          { st with events := st.events ++
              [.commit msg, .push backupRemoteName bn, .fetch backupRemoteName] }

/-- The try block of `performBackup` (lines 278-394): any error thrown by a git
call (other than staging, whose catch at lines 369-372 swallows the error) is
rethrown by the catch at lines 385-394 as `Git operation failed: ...`; the
locally created branch is left in place. -/
def performBackupGit (o : BackupOracle) (bn0 msg : String) (st0 : BackupState) : BackupResult :=
  match defaultBranchStep o st0 with
  | .error m => .err ("Git operation failed: " ++ m) st0
  | .ok st1 =>
    match createBranchStep o bn0 st1 with
    | .error m => .err ("Git operation failed: " ++ m) st1
    | .ok (bn, st2) =>
      commitPushFetch o bn msg { st2 with events := st2.events ++ stagingEvents o }

theorem defaultBranchStep_localBranches (o : BackupOracle) (st st' : BackupState)
    (h : defaultBranchStep o st = .ok st') : st'.localBranches = st.localBranches := by
  unfold defaultBranchStep at h
  split at h
  · cases h; rfl
  · split at h
    · cases h; rfl
    · split at h
      · cases h; rfl
      · cases h

theorem createBranchStep_shape (o : BackupOracle) (bn0 : String) (st : BackupState)
    (bn : String) (st' : BackupState) (h : createBranchStep o bn0 st = .ok (bn, st')) :
    st'.localBranches = st.localBranches ∨ st'.localBranches = st.localBranches ++ [bn] := by
  unfold createBranchStep at h
  split at h
  · simp only [Except.ok.injEq, Prod.mk.injEq] at h
    right
    rw [← h.2, ← h.1]
  · split at h
    · split at h
      · simp only [Except.ok.injEq, Prod.mk.injEq] at h
        left
        rw [← h.2]
      · split at h
        · simp only [Except.ok.injEq, Prod.mk.injEq] at h
          right
          rw [← h.2, ← h.1]
        · cases h
    · cases h

theorem commitPushFetch_err (o : BackupOracle) (bn msg : String) (st : BackupState)
    (m : String) (st' : BackupState) (h : commitPushFetch o bn msg st = .err m st') :
    (∃ u, m = "Git operation failed: " ++ u) ∧ st'.localBranches = st.localBranches := by
  unfold commitPushFetch at h
  repeat' split at h
  all_goals cases h
  all_goals exact ⟨⟨_, rfl⟩, rfl⟩

/-- C3 (amended): every git-operation failure surfacing from the try block of
`performBackup` — establishing a default branch, branch creation, commit, push,
or fetch — reaches the caller as a single `Git operation failed: ...` error
carrying the underlying message, and the locally created snapshot branch is not
rolled back (`localBranches` only ever grows, and with a current branch and a
successful creation the branch is still present in the error state).  Staging
(`git add`) failures are the exception: the catch at lines 369-372 swallows
them and the run continues to an empty commit (see the counterexample). -/
theorem performBackup_failures_surface (o : BackupOracle) (bn0 msg : String) (st0 : BackupState) :
    (∀ m st, performBackupGit o bn0 msg st0 = .err m st →
        (∃ u, m = "Git operation failed: " ++ u) ∧
          ∃ added, st.localBranches = st0.localBranches ++ added) ∧
      (o.statusCurrent ≠ none → o.checkoutLocalBranchErr bn0 = none →
        ∀ m st, performBackupGit o bn0 msg st0 = .err m st → bn0 ∈ st.localBranches) := by
  constructor
  · intro m st h
    unfold performBackupGit at h
    split at h
    · injection h with h1 h2
      exact ⟨⟨_, h1.symm⟩, ⟨[], by rw [← h2, List.append_nil]⟩⟩
    · rename_i st1 hdef
      split at h
      · injection h with h1 h2
        refine ⟨⟨_, h1.symm⟩, ⟨[], ?_⟩⟩
        rw [← h2, defaultBranchStep_localBranches o st0 st1 hdef, List.append_nil]
      · rename_i bn1 st2 hcr
        obtain ⟨hw, hlb⟩ := commitPushFetch_err o bn1 msg _ m st h
        refine ⟨hw, ?_⟩
        have hd := defaultBranchStep_localBranches o st0 st1 hdef
        rcases createBranchStep_shape o bn0 st1 bn1 st2 hcr with h2 | h2
        · exact ⟨[], by rw [hlb]; show st2.localBranches = _; rw [h2, hd, List.append_nil]⟩
        · exact ⟨[bn1], by rw [hlb]; show st2.localBranches = _; rw [h2, hd]⟩
  · intro hcur hcr0 m st h
    unfold performBackupGit at h
    split at h
    · rename_i m' hdef
      exfalso
      unfold defaultBranchStep at hdef
      cases hc : o.statusCurrent with
      | none => exact hcur hc
      | some c => rw [hc] at hdef; cases hdef
    · rename_i st1 hdef
      split at h
      · rename_i m' hcr
        exfalso
        unfold createBranchStep at hcr
        rw [hcr0] at hcr
        cases hcr
      · rename_i bn1 st2 hcr
        unfold createBranchStep at hcr
        rw [hcr0] at hcr
        simp only [Except.ok.injEq, Prod.mk.injEq] at hcr
        obtain ⟨hw, hlb⟩ := commitPushFetch_err o bn1 msg _ m st h
        rw [hlb]
        show bn0 ∈ st2.localBranches
        rw [← hcr.2]
        simp

/-- All git calls succeed, there is a current branch, and the push is rejected
with the given file list. -/
def pushFailOracle (files : List String) : BackupOracle :=
  ⟨some "main", none, none, fun _ => none, fun _ => none, files, fun _ => none, none,
   some "remote rejected", none, 0⟩

/-- Witness for `performBackup_failures_surface`: a rejected push on a concrete
run surfaces as the wrapped Git error while the created branch survives. -/
theorem performBackup_failures_surface_witness :
    (∃ u, "Git operation failed: remote rejected" = "Git operation failed: " ++ u) ∧
      ∃ added,
        (BackupState.mk ["v1.0/ts"] [GitEvent.createBranch "v1.0/ts", GitEvent.commit "m"]).localBranches
          = (BackupState.mk [] []).localBranches ++ added :=
  (performBackup_failures_surface (pushFailOracle []) "v1.0/ts" "m" ⟨[], []⟩).1
    "Git operation failed: remote rejected"
    ⟨["v1.0/ts"], [GitEvent.createBranch "v1.0/ts", GitEvent.commit "m"]⟩ (by decide)

/-- Every git call succeeds but `git add` throws; the modified file list is
non-empty. -/
def addFailOracle : BackupOracle :=
  ⟨some "main", none, none, fun _ => none, fun _ => none, ["src/a.ts"],
   fun _ => some "index.lock exists", none, none, none, 0⟩

/-- C3 counterexample: a staging (`git add`) failure in step 9 is silently
swallowed — the add throws (`addErr` is `some`), yet the run finishes `ok`,
nothing was staged (no `add` event), and no error carrying the message ever
reaches the caller.  This refutes the claim that no git failure in steps 7-11
(including staging) is swallowed. -/
theorem performBackup_staging_swallowed_counterexample :
    addFailOracle.addErr ["src/a.ts"] = some "index.lock exists" ∧
      performBackupGit addFailOracle "v1.0/ts" "m" ⟨[], []⟩
        = .ok "v1.0/ts"
            ⟨["v1.0/ts"],
             [GitEvent.createBranch "v1.0/ts", GitEvent.commit "m",
              GitEvent.push backupRemoteName "v1.0/ts", GitEvent.fetch backupRemoteName]⟩ := by
  constructor
  · rfl
  · decide

/-- C4: a snapshot run whose working tree reports zero changed paths still
creates the snapshot branch, makes an (empty) commit — no `add` event precedes
it — pushes the branch to the dedicated backup remote and fetches; the run ends
`ok`, neither skipped nor reported as a failure. -/
theorem emptyTree_backup_proceeds (o : BackupOracle) (bn msg c : String) (st0 : BackupState)
    (hcur : o.statusCurrent = some c) (hfiles : o.statusFiles = [])
    (hcreate : o.checkoutLocalBranchErr bn = none) (hcommit : o.commitErr = none)
    (hpush : o.pushErr = none) (hfetch : o.fetchErr = none) :
    performBackupGit o bn msg st0
      = .ok bn
          ⟨st0.localBranches ++ [bn],
           st0.events ++ [.createBranch bn, .commit msg,
             .push backupRemoteName bn, .fetch backupRemoteName]⟩ := by
  unfold performBackupGit defaultBranchStep createBranchStep commitPushFetch stagingEvents
  rw [hcur, hfiles, hcreate, hcommit, hpush, hfetch]
  simp

/-- Witness for `emptyTree_backup_proceeds` on a concrete clean-tree run. -/
theorem emptyTree_backup_proceeds_witness :
    performBackupGit
        ⟨some "main", none, none, fun _ => none, fun _ => none, [], fun _ => none,
         none, none, none, 0⟩ "v2.1/ts" "m" ⟨[], []⟩
      = .ok "v2.1/ts"
          ⟨[] ++ ["v2.1/ts"],
           [] ++ [.createBranch "v2.1/ts", .commit "m",
             .push backupRemoteName "v2.1/ts", .fetch backupRemoteName]⟩ :=
  emptyTree_backup_proceeds
    ⟨some "main", none, none, fun _ => none, fun _ => none, [], fun _ => none,
     none, none, none, 0⟩ "v2.1/ts" "m" "main" ⟨[], []⟩ rfl rfl rfl rfl rfl rfl

/-! ## RestoreCoordinator (`restoreFromBackup`, backupManager.ts lines 398-463) -/

/-- Outcomes of the external calls made by `restoreFromBackup`. -/
structure RestoreOracle where
  /-- outcome of `git.fetch(remote, branchName)` (line 421). -/
  fetchErr : Option String
  /-- `status.isClean()` (line 437). -/
  isClean : Bool
  /-- outcome of `git.stash(['push', '-u', '-m', label])` (line 439). -/
  stashPushErr : Option String
  /-- outcome of the forced checkout (line 446). -/
  checkoutErr : Option String
  /-- outcome of `git.stash(['pop'])` (line 451). -/
  popErr : Option String
  /-- `moment().format('YYYYMMDDHHmmss')` at stash time (line 438). -/
  now : String

/-- Observable effects of one restore call: the ordered git operations, the
stash entries existing afterwards, and the user-visible notifications. -/
structure RestoreTrace where
  events : List GitEvent
  stashes : List String
  messages : List String
deriving DecidableEq

/-- Outcome of `restoreFromBackup`: success or the raised error, with the trace. -/
inductive RestoreResult where
  | ok (tr : RestoreTrace)
  | err (msg : String) (tr : RestoreTrace)
deriving DecidableEq

/-- The stash label `Version0_stash_before_restore_${timestamp}` (line 438). -/
def restoreStashLabel (o : RestoreOracle) : String :=
  "Version0_stash_before_restore_" ++ o.now

/-- `restoreFromBackup` (lines 398-463), after the remote-binding step (which
reuses `configureBackupRemote` with the fetch-URL check): fetch the branch
(failure is wrapped as `Failed to prepare remote for restore:`); then, inside
the try block, stash when the tree is dirty, force-checkout the fetched remote
ref, and pop the stash when one was made (a pop conflict is only a warning);
errors of the try block are rethrown as `Failed to restore from branch ...`. -/
def restoreFromBackup (branchName : String) (o : RestoreOracle) : RestoreResult :=
  match o.fetchErr with
  | some m => .err ("Failed to prepare remote for restore: " ++ m) ⟨[], [], []⟩
  | none =>
    let tr1 : RestoreTrace := ⟨[.fetch backupRemoteName], [], []⟩
    let remoteBranchRef := "refs/remotes/" ++ backupRemoteName ++ "/" ++ branchName
    if o.isClean then
      match o.checkoutErr with
      | some m => .err ("Failed to restore from branch '" ++ branchName ++ "': " ++ m) tr1
      | none =>
        .ok ⟨tr1.events ++ [.forcedCheckout remoteBranchRef], tr1.stashes,
          tr1.messages ++
            ["Successfully restored workspace to backup branch '" ++ branchName ++ "'."]⟩
    else
      match o.stashPushErr with
      | some m => .err ("Failed to restore from branch '" ++ branchName ++ "': " ++ m) tr1
      | none =>
        let lbl := restoreStashLabel o
        let tr2 : RestoreTrace := ⟨tr1.events ++ [.stashPush lbl], tr1.stashes ++ [lbl],
          tr1.messages ++ ["Local changes stashed as: " ++ lbl]⟩
        match o.checkoutErr with
        | some m => .err ("Failed to restore from branch '" ++ branchName ++ "': " ++ m) tr2
        | none =>
          let tr3 : RestoreTrace := ⟨tr2.events ++ [.forcedCheckout remoteBranchRef],
            tr2.stashes, tr2.messages⟩
          match o.popErr with
          | none =>
            .ok ⟨tr3.events ++ [.stashPop], tr3.stashes.dropLast,
              tr3.messages ++
                ["Previously stashed changes (if any) have been reapplied.",
                 "Successfully restored workspace to backup branch '" ++ branchName ++ "'."]⟩
          | some _ =>
            .ok ⟨tr3.events ++ [.stashPop], tr3.stashes,
              tr3.messages ++
                ["Could not automatically reapply stashed changes due to conflicts. Please resolve them manually. Stash was named: '" ++ lbl ++ "'.",
                 "Successfully restored workspace to backup branch '" ++ branchName ++ "'."]⟩

/-- The trace of a restore outcome. -/
def RestoreResult.trace : RestoreResult → RestoreTrace
  | .ok tr => tr
  | .err _ tr => tr

/-- Recognizer for stash-creating events. -/
def isStashPush : GitEvent → Bool
  | .stashPush _ => true
  | _ => false

/-- Recognizer for stash-reapply events. -/
def isStashPop : GitEvent → Bool
  | .stashPop => true
  | _ => false

/-- C5 (amended): a restore on a clean tree never creates a stash and never
attempts a reapply, whatever the git outcomes; a restore on a dirty tree whose
fetch, stash push and forced checkout succeed performs exactly the sequence
fetch, one stash push, the forced checkout, one stash pop — exactly one stash
is created before the checkout and exactly one reapply is attempted after it.
(When the checkout fails, no reapply is attempted — see the counterexample.) -/
theorem restore_stash_discipline (bn : String) (o : RestoreOracle) :
    (o.isClean = true →
        ((restoreFromBackup bn o).trace.events.all fun e => !isStashPush e) = true ∧
        (restoreFromBackup bn o).trace.stashes = [] ∧
        ((restoreFromBackup bn o).trace.events.all fun e => !isStashPop e) = true) ∧
      (o.isClean = false → o.fetchErr = none → o.stashPushErr = none → o.checkoutErr = none →
        (restoreFromBackup bn o).trace.events
          = [.fetch backupRemoteName, .stashPush (restoreStashLabel o),
             .forcedCheckout ("refs/remotes/" ++ backupRemoteName ++ "/" ++ bn), .stashPop]) := by
  constructor
  · intro hclean
    unfold restoreFromBackup
    cases hf : o.fetchErr with
    | some m => simp [RestoreResult.trace]
    | none =>
      simp only [hclean, if_true]
      cases hc : o.checkoutErr with
      | some m => simp [RestoreResult.trace, isStashPush, isStashPop]
      | none => simp [RestoreResult.trace, isStashPush, isStashPop]
  · intro hdirty hf hs hc
    unfold restoreFromBackup
    rw [hf, hdirty, hs, hc]
    cases hp : o.popErr with
    | none => simp [RestoreResult.trace]
    | some m => simp [RestoreResult.trace]

/-- Witness for `restore_stash_discipline`: a concrete dirty-tree restore whose
git calls succeed stashes once before the checkout and pops once after. -/
theorem restore_stash_discipline_witness :
    (restoreFromBackup "v1.0/ts" ⟨none, false, none, none, none, "20240101000000"⟩).trace.events
      = [.fetch backupRemoteName,
         .stashPush (restoreStashLabel ⟨none, false, none, none, none, "20240101000000"⟩),
         .forcedCheckout ("refs/remotes/" ++ backupRemoteName ++ "/" ++ "v1.0/ts"), .stashPop] :=
  (restore_stash_discipline "v1.0/ts" ⟨none, false, none, none, none, "20240101000000"⟩).2
    rfl rfl rfl rfl

/-- C5 counterexample: on a dirty tree whose forced checkout fails, no reapply
(stash pop) is ever attempted — refuting "exactly one reapply is attempted
after it" for every dirty restore call. -/
theorem restore_missing_reapply_counterexample :
    (⟨none, false, none, some "checkout failed", none,
        "20240101000000"⟩ : RestoreOracle).isClean = false ∧
      ((restoreFromBackup "v1.0/ts"
          ⟨none, false, none, some "checkout failed", none,
           "20240101000000"⟩).trace.events.countP isStashPop) = 0 ∧
      (restoreFromBackup "v1.0/ts"
          ⟨none, false, none, some "checkout failed", none, "20240101000000"⟩).trace.events.countP
        isStashPush = 1 := by
  refine ⟨rfl, ?_, ?_⟩ <;> decide

/-- C6: for a dirty-tree restore, a fetch failure happens before any stash is
created, so no stash can dangle; once the stash was created (fetch and stash
push succeeded), any raised error leaves the stash in place with its label
already reported in the shown messages (`Local changes stashed as: ...`), and a
reapply conflict reports the label in the warning — the stash is never left
dangling silently. -/
theorem restore_stash_label_reported (bn : String) (o : RestoreOracle)
    (hdirty : o.isClean = false) :
    (o.fetchErr ≠ none → (restoreFromBackup bn o).trace.stashes = []) ∧
      (o.fetchErr = none → o.stashPushErr = none →
        (∀ m tr, restoreFromBackup bn o = .err m tr →
            tr.stashes = [restoreStashLabel o] ∧
            ("Local changes stashed as: " ++ restoreStashLabel o) ∈ tr.messages) ∧
          (o.checkoutErr = none → o.popErr ≠ none →
            ("Could not automatically reapply stashed changes due to conflicts. Please resolve them manually. Stash was named: '"
                ++ restoreStashLabel o ++ "'.")
              ∈ (restoreFromBackup bn o).trace.messages)) := by
  constructor
  · intro hf
    unfold restoreFromBackup
    cases hfe : o.fetchErr with
    | some m => simp [RestoreResult.trace]
    | none => exact absurd hfe hf
  · intro hf hs
    constructor
    · intro m tr h
      unfold restoreFromBackup at h
      rw [hf, hdirty, hs] at h
      cases hc : o.checkoutErr with
      | some m2 =>
        rw [hc] at h
        injection h with h1 h2
        constructor
        · rw [← h2]
          simp
        · rw [← h2]
          simp
      | none =>
        rw [hc] at h
        cases hp : o.popErr with
        | none => rw [hp] at h; cases h
        | some m2 => rw [hp] at h; cases h
    · intro hc hp
      unfold restoreFromBackup
      rw [hf, hdirty, hs, hc]
      cases hpe : o.popErr with
      | none => exact absurd hpe hp
      | some m2 => simp [RestoreResult.trace]

/-- Witness for `restore_stash_label_reported`: a concrete dirty restore whose
checkout fails leaves the stash with its label among the shown messages. -/
theorem restore_stash_label_reported_witness :
    (restoreFromBackup "v1.0/ts"
          ⟨none, false, none, some "checkout failed", none, "20240101000000"⟩).trace.stashes
        = [restoreStashLabel ⟨none, false, none, some "checkout failed", none, "20240101000000"⟩] ∧
      ("Local changes stashed as: "
          ++ restoreStashLabel ⟨none, false, none, some "checkout failed", none, "20240101000000"⟩)
        ∈ (restoreFromBackup "v1.0/ts"
            ⟨none, false, none, some "checkout failed", none, "20240101000000"⟩).trace.messages :=
  ((restore_stash_label_reported "v1.0/ts"
      ⟨none, false, none, some "checkout failed", none, "20240101000000"⟩ rfl).2 rfl rfl).1
    "Failed to restore from branch 'v1.0/ts': checkout failed"
    (restoreFromBackup "v1.0/ts"
      ⟨none, false, none, some "checkout failed", none, "20240101000000"⟩).trace (by decide)

/-! ## Restore latest (`getLatestBackupBranch` lines 468-487 and
`restoreLatestBackup` lines 492-498, backupManager.ts)

`moment(ts, 'YYYY-MM-DD_HH-mm-ss', true)` is strict: the whole string must
match the format and be a valid calendar date/time.  `toDate().getTime()` is
modelled as epoch milliseconds under UTC (Howard Hinnant's civil-date
algorithm); only its sign and relative order matter to the selection. -/

/-- JavaScript `branch.split('/')` on the character list of a string. -/
def splitSlash : List Char → List (List Char)
  | [] => [[]]
  | c :: cs =>
    if c = '/' then [] :: splitSlash cs
    else
      match splitSlash cs with
      | [] => [[c]]
      | h :: t => (c :: h) :: t

/-- The six numeric components of a `YYYY-MM-DD_HH-mm-ss` timestamp. -/
structure TsFields where
  year : Nat
  month : Nat
  day : Nat
  hour : Nat
  minute : Nat
  second : Nat
deriving DecidableEq

/-- Strict match of the character list against `YYYY-MM-DD_HH-mm-ss`: exactly 19
characters, digits and separators in the format's positions. -/
def parseTsFields : List Char → Option TsFields
  | [y1, y2, y3, y4, s1, mo1, mo2, s2, d1, d2, s3, h1, h2, s4, mi1, mi2, s5, se1, se2] =>
    if y1.isDigit && y2.isDigit && y3.isDigit && y4.isDigit && s1 == '-' &&
        mo1.isDigit && mo2.isDigit && s2 == '-' && d1.isDigit && d2.isDigit &&
        s3 == '_' && h1.isDigit && h2.isDigit && s4 == '-' && mi1.isDigit && mi2.isDigit &&
        s5 == '-' && se1.isDigit && se2.isDigit then
      some ⟨digitVal y1 * 1000 + digitVal y2 * 100 + digitVal y3 * 10 + digitVal y4,
            digitVal mo1 * 10 + digitVal mo2,
            digitVal d1 * 10 + digitVal d2,
            digitVal h1 * 10 + digitVal h2,
            digitVal mi1 * 10 + digitVal mi2,
            digitVal se1 * 10 + digitVal se2⟩
    else none
  | _ => none

/-- Gregorian leap-year rule. -/
def isLeapYear (y : Nat) : Bool := (y % 4 == 0 && y % 100 != 0) || y % 400 == 0

/-- Days in a month of the Gregorian calendar. -/
def daysInMonth (y m : Nat) : Nat :=
  if m = 2 then (if isLeapYear y then 29 else 28)
  else if m = 4 ∨ m = 6 ∨ m = 9 ∨ m = 11 then 30
  else 31

/-- Calendar validity, as enforced by moment's strict parsing. -/
def tsValid (f : TsFields) : Bool :=
  1 ≤ f.month && f.month ≤ 12 && 1 ≤ f.day && f.day ≤ daysInMonth f.year f.month &&
    f.hour ≤ 23 && f.minute ≤ 59 && f.second ≤ 59

/-- Days between a civil date and 1970-01-01 (Howard Hinnant's
`days_from_civil`). -/
def daysFromCivil (year month day : Nat) : Int :=
  let y : Int := if month ≤ 2 then (year : Int) - 1 else (year : Int)
  let era : Int := (if 0 ≤ y then y else y - 399) / 400
  let yoe : Int := y - era * 400
  let mp : Int := if month > 2 then (month : Int) - 3 else (month : Int) + 9
  let doy : Int := (153 * mp + 2) / 5 + (day : Int) - 1
  let doe : Int := yoe * 365 + yoe / 4 - yoe / 100 + doy
  era * 146097 + doe - 719468

/-- Epoch milliseconds of a parsed timestamp (`moment(...).toDate().getTime()`
under UTC). -/
def epochMs (f : TsFields) : Int :=
  (((daysFromCivil f.year f.month f.day * 24 + f.hour) * 60 + f.minute) * 60 + f.second) * 1000

/-- `moment(ts, 'YYYY-MM-DD_HH-mm-ss', true)` followed by `.toDate().getTime()`:
`some` epoch-ms when the whole string strictly matches the format and is a valid
date, `none` otherwise. -/
def parseTsMs (l : List Char) : Option Int :=
  match parseTsFields l with
  | some f => if tsValid f then some (epochMs f) else none
  | none => none

/-- The per-branch sort key of `getLatestBackupBranch` (lines 477-483): split at
`/`, strictly parse the second segment, `0` when missing or invalid
(`time.isValid() ? time.toDate().getTime() : 0`). -/
def branchTime (b : String) : Int :=
  match (splitSlash b.data)[1]? with
  | some seg =>
    match parseTsMs seg with
    | some t => t
    | none => 0
  | none => 0

/-- The descending-time comparator of `.sort((a, b) => b.time - a.time)`
(line 485). -/
def timeGe (p q : String × Int) : Prop := q.2 ≤ p.2

instance : DecidableRel timeGe := fun p q => inferInstanceAs (Decidable (q.2 ≤ p.2))

instance : IsTotal (String × Int) timeGe := ⟨fun p q => le_total q.2 p.2⟩

instance : IsTrans (String × Int) timeGe := ⟨fun _ _ _ h1 h2 => le_trans h2 h1⟩

/-- `getLatestBackupBranch` (lines 468-487): pair each branch with its time,
keep the positive times, sort descending (stably — JavaScript's sort), and take
the first name. -/
def getLatestBackupBranch (branches : List String) : Option String :=
  if branches.length = 0 then none
  else
    (((branches.map fun b => (b, branchTime b)).filter
        fun p => 0 < p.2).insertionSort timeGe).head?.map Prod.fst

/-- Outcome of `restoreLatestBackup`: the thrown not-found error, or delegation
to `restoreFromBackup` with the selected branch. -/
inductive RestoreLatestResult where
  | notFound (msg : String)
  | restored (branchName : String)
deriving DecidableEq

/-- `restoreLatestBackup` (lines 492-498). -/
def restoreLatestBackup (branches : List String) : RestoreLatestResult :=
  match getLatestBackupBranch branches with
  | none => .notFound "No backup branches found to restore."
  | some b => .restored b

/-- Any branch selected by `getLatestBackupBranch` is one of the inputs, has a
positive (valid) time, and its time dominates every input's time. -/
theorem getLatest_spec (branches : List String) (b : String)
    (h : getLatestBackupBranch branches = some b) :
    b ∈ branches ∧ 0 < branchTime b ∧ ∀ b' ∈ branches, branchTime b' ≤ branchTime b := by
  unfold getLatestBackupBranch at h
  split at h
  · cases h
  · cases hs : ((branches.map fun b => (b, branchTime b)).filter
        fun p => 0 < p.2).insertionSort timeGe with
    | nil => rw [hs] at h; cases h
    | cons p tl =>
      rw [hs] at h
      simp only [List.head?_cons, Option.map_some', Option.some.injEq] at h
      have hpmem : p ∈ (branches.map fun b => (b, branchTime b)).filter fun p => 0 < p.2 := by
        have hm : p ∈ ((branches.map fun b => (b, branchTime b)).filter
            fun p => 0 < p.2).insertionSort timeGe := by
          rw [hs]; exact List.mem_cons_self ..
        exact (List.perm_insertionSort timeGe _).mem_iff.mp hm
      obtain ⟨hmap, hpos⟩ := List.mem_filter.mp hpmem
      obtain ⟨b0, hb0, hb0eq⟩ := List.mem_map.mp hmap
      have hp1 : p.1 = b0 := by rw [← hb0eq]
      have hp2 : p.2 = branchTime b0 := by rw [← hb0eq]
      have hpos' : 0 < p.2 := of_decide_eq_true hpos
      refine ⟨?_, ?_, ?_⟩
      · rw [← h, hp1]; exact hb0
      · rw [← h, hp1, ← hp2]; exact hpos'
      · intro b' hb'
        rcases le_or_lt (branchTime b') 0 with h0 | h0
        · have : 0 < branchTime b := by rw [← h, hp1, ← hp2]; exact hpos'
          omega
        · have hmem' : (b', branchTime b') ∈ (branches.map fun b => (b, branchTime b)).filter
              fun p => 0 < p.2 :=
            List.mem_filter.mpr ⟨List.mem_map.mpr ⟨b', hb', rfl⟩, by simpa using h0⟩
          have hmem'' : (b', branchTime b') ∈ p :: tl := by
            rw [← hs]
            exact (List.perm_insertionSort timeGe _).symm.mem_iff.mp hmem'
          have hsorted : List.Sorted timeGe (p :: tl) := by
            rw [← hs]
            exact List.sorted_insertionSort timeGe _
          rcases List.mem_cons.mp hmem'' with heq | hmem''
          · have : branchTime b' = p.2 := by rw [← heq]
            rw [this, ← h, hp1, ← hp2]
          · have := List.rel_of_sorted_cons hsorted _ hmem''
            have hle : branchTime b' ≤ p.2 := this
            rw [← h, hp1, ← hp2]
            exact hle

/-- With at least one positive-time branch a latest branch is found. -/
theorem getLatest_some_of_valid (branches : List String) (b0 : String) (hb0 : b0 ∈ branches)
    (hpos : 0 < branchTime b0) : ∃ b, getLatestBackupBranch branches = some b := by
  unfold getLatestBackupBranch
  split
  · rename_i hlen
    rw [List.length_eq_zero] at hlen
    subst hlen
    cases hb0
  · have hmem : (b0, branchTime b0) ∈ (branches.map fun b => (b, branchTime b)).filter
        fun p => 0 < p.2 :=
      List.mem_filter.mpr ⟨List.mem_map.mpr ⟨b0, hb0, rfl⟩, by simpa using hpos⟩
    cases hs : ((branches.map fun b => (b, branchTime b)).filter
        fun p => 0 < p.2).insertionSort timeGe with
    | nil =>
      exfalso
      have hnil : (branches.map fun b => (b, branchTime b)).filter (fun p => 0 < p.2) = [] := by
        have hperm := List.perm_insertionSort timeGe
          ((branches.map fun b => (b, branchTime b)).filter fun p => 0 < p.2)
        rw [hs] at hperm
        exact hperm.symm.eq_nil
      rw [hnil] at hmem
      cases hmem
    | cons p tl =>
      exact ⟨p.1, rfl⟩

/-- With no positive-time branch nothing is found. -/
theorem getLatest_eq_none (branches : List String) (hall : ∀ b ∈ branches, branchTime b ≤ 0) :
    getLatestBackupBranch branches = none := by
  unfold getLatestBackupBranch
  split
  · rfl
  · have hnil : (branches.map fun b => (b, branchTime b)).filter (fun p => 0 < p.2) = [] := by
      rw [List.filter_eq_nil_iff]
      intro p hp
      obtain ⟨b0, hb0, hb0eq⟩ := List.mem_map.mp hp
      have := hall b0 hb0
      simp only [decide_eq_true_eq]
      rw [← hb0eq]
      omega
    rw [hnil]
    rfl

/-- C9: `restoreLatestBackup` selects, among the listed snapshot branches, one
whose strictly parsed timestamp segment (after the `/`) is valid and maximal,
and delegates to `restoreFromBackup` with it; when no branch has a valid
(positive-epoch) timestamp — in particular when the list is empty — it raises
`No backup branches found to restore.` instead; over timestamps 2024-01-01,
2024-03-05, 2024-02-10 it selects the 2024-03-05 branch. -/
theorem restoreLatest_correct (branches : List String) :
    (∀ b, restoreLatestBackup branches = .restored b →
        b ∈ branches ∧ 0 < branchTime b ∧ ∀ b' ∈ branches, branchTime b' ≤ branchTime b) ∧
      ((∀ b ∈ branches, branchTime b ≤ 0) →
        restoreLatestBackup branches = .notFound "No backup branches found to restore.") ∧
      ((∃ b ∈ branches, 0 < branchTime b) →
        ∃ b, restoreLatestBackup branches = .restored b) ∧
      restoreLatestBackup
          ["v1.0/2024-01-01_00-00-00", "v1.2/2024-03-05_00-00-00", "v2.0/2024-02-10_00-00-00"]
        = .restored "v1.2/2024-03-05_00-00-00" := by
  refine ⟨?_, ?_, ?_, by decide⟩
  · intro b h
    unfold restoreLatestBackup at h
    cases hg : getLatestBackupBranch branches with
    | none => rw [hg] at h; cases h
    | some b1 =>
      rw [hg] at h
      injection h with hb
      exact hb ▸ getLatest_spec branches b1 hg
  · intro hall
    unfold restoreLatestBackup
    rw [getLatest_eq_none branches hall]
  · rintro ⟨b0, hb0, hpos⟩
    obtain ⟨b, hb⟩ := getLatest_some_of_valid branches b0 hb0 hpos
    exact ⟨b, by unfold restoreLatestBackup; rw [hb]⟩

/-- Witness for `restoreLatest_correct`: a list with no parsable timestamp fails
with the not-found error. -/
theorem restoreLatest_correct_witness :
    restoreLatestBackup ["main"] = .notFound "No backup branches found to restore." :=
  (restoreLatest_correct ["main"]).2.1 (by decide)

theorem digitChar_ne_slash (n : Nat) : Nat.digitChar n ≠ '/' := by
  unfold Nat.digitChar
  rcases Nat.lt_or_ge n 16 with h | h
  · interval_cases n <;> decide
  · repeat' rw [if_neg (by omega)]
    decide

theorem toDigitsCore_no_slash :
    ∀ (fuel n : Nat) (acc : List Char), '/' ∉ acc → '/' ∉ Nat.toDigitsCore 10 fuel n acc := by
  intro fuel
  induction fuel with
  | zero =>
    intro n acc hacc
    simpa [Nat.toDigitsCore] using hacc
  | succ fuel ih =>
    intro n acc hacc
    simp only [Nat.toDigitsCore]
    split
    · intro hmem
      rcases List.mem_cons.mp hmem with h | h
      · exact digitChar_ne_slash _ h.symm
      · exact hacc h
    · refine ih _ _ ?_
      intro hmem
      rcases List.mem_cons.mp hmem with h | h
      · exact digitChar_ne_slash _ h.symm
      · exact hacc h

/-- The decimal representation of a natural number contains no `/`. -/
theorem repr_no_slash (n : Nat) : '/' ∉ (Nat.repr n).data :=
  toDigitsCore_no_slash (n + 1) n [] (by intro h; cases h)

theorem splitSlash_ne_nil : ∀ l : List Char, splitSlash l ≠ [] := by
  intro l
  induction l with
  | nil => simp [splitSlash]
  | cons c cs ih =>
    unfold splitSlash
    by_cases hc : c = '/'
    · simp [hc]
    · rw [if_neg hc]
      cases hsp : splitSlash cs with
      | nil => simp
      | cons h t => simp

theorem splitSlash_head : ∀ l : List Char,
    (splitSlash l).head? = some (l.takeWhile fun c => !(c == '/')) := by
  intro l
  induction l with
  | nil => rfl
  | cons c cs ih =>
    unfold splitSlash
    by_cases hc : c = '/'
    · rw [if_pos hc]
      subst hc
      simp [List.takeWhile_cons]
    · rw [if_neg hc]
      cases hsp : splitSlash cs with
      | nil => exact absurd hsp (splitSlash_ne_nil cs)
      | cons h t =>
        rw [hsp] at ih
        simp only [List.head?_cons, Option.some.injEq] at ih
        simp [List.takeWhile_cons, hc, ← ih]

theorem splitSlash_append (l1 l2 : List Char) (h1 : '/' ∉ l1) :
    splitSlash (l1 ++ '/' :: l2) = l1 :: splitSlash l2 := by
  induction l1 with
  | nil => simp [splitSlash]
  | cons c cs ih =>
    have hc : ¬(c = '/') := by
      intro hcc
      exact h1 (by rw [hcc]; exact List.mem_cons_self _ _)
    have ih' := ih fun hm => h1 (List.mem_cons_of_mem c hm)
    rw [List.cons_append]
    conv_lhs => unfold splitSlash
    rw [if_neg hc, ih']

theorem takeWhile_append_all (p : Char → Bool) (l1 l2 : List Char)
    (h : ∀ c ∈ l1, p c = true) :
    (l1 ++ l2).takeWhile p = l1 ++ l2.takeWhile p := by
  induction l1 with
  | nil => simp
  | cons c cs ih =>
    have hc := h c (List.mem_cons_self _ _)
    have ih' := ih fun x hx => h x (List.mem_cons_of_mem c hx)
    simp [List.takeWhile_cons, hc, ih']

/-- A strict format match consumes exactly 19 characters. -/
theorem parseTsFields_length {l : List Char} {f : TsFields} (h : parseTsFields l = some f) :
    l.length = 19 := by
  unfold parseTsFields at h
  split at h
  · simp
  · cases h

/-- A strictly matching timestamp contains no `/`. -/
theorem parseTsFields_no_slash {l : List Char} {f : TsFields} (h : parseTsFields l = some f) :
    '/' ∉ l := by
  unfold parseTsFields at h
  split at h
  · rename_i y1 y2 y3 y4 s1 mo1 mo2 s2 d1 d2 s3 hh1 hh2 s4 mi1 mi2 s5 se1 se2
    split at h
    · rename_i hflags
      simp only [Bool.and_eq_true, beq_iff_eq] at hflags
      obtain ⟨⟨⟨⟨⟨⟨⟨⟨⟨⟨⟨⟨⟨⟨⟨⟨⟨⟨hy1, hy2⟩, hy3⟩, hy4⟩, hs1⟩, hmo1⟩, hmo2⟩, hs2⟩, hd1⟩,
        hd2⟩, hs3⟩, hhh1⟩, hhh2⟩, hs4⟩, hmi1⟩, hmi2⟩, hs5⟩, hse1⟩, hse2⟩ := hflags
      intro hmem
      simp only [List.mem_cons, List.not_mem_nil, or_false] at hmem
      rcases hmem with h'|h'|h'|h'|h'|h'|h'|h'|h'|h'|h'|h'|h'|h'|h'|h'|h'|h'|h'
      · rw [← h'] at hy1; exact absurd hy1 (by decide)
      · rw [← h'] at hy2; exact absurd hy2 (by decide)
      · rw [← h'] at hy3; exact absurd hy3 (by decide)
      · rw [← h'] at hy4; exact absurd hy4 (by decide)
      · rw [← h'] at hs1; exact absurd hs1 (by decide)
      · rw [← h'] at hmo1; exact absurd hmo1 (by decide)
      · rw [← h'] at hmo2; exact absurd hmo2 (by decide)
      · rw [← h'] at hs2; exact absurd hs2 (by decide)
      · rw [← h'] at hd1; exact absurd hd1 (by decide)
      · rw [← h'] at hd2; exact absurd hd2 (by decide)
      · rw [← h'] at hs3; exact absurd hs3 (by decide)
      · rw [← h'] at hhh1; exact absurd hhh1 (by decide)
      · rw [← h'] at hhh2; exact absurd hhh2 (by decide)
      · rw [← h'] at hs4; exact absurd hs4 (by decide)
      · rw [← h'] at hmi1; exact absurd hmi1 (by decide)
      · rw [← h'] at hmi2; exact absurd hmi2 (by decide)
      · rw [← h'] at hs5; exact absurd hs5 (by decide)
      · rw [← h'] at hse1; exact absurd hse1 (by decide)
      · rw [← h'] at hse2; exact absurd hse2 (by decide)
    · cases h
  · cases h

/-- A collision-suffixed branch name `v{major}.{minor}/{timestamp}-{n}` gets
time `0`: strict parsing of its timestamp segment fails on the extra suffix. -/
theorem branchTime_suffixed (major minor n : Nat) (ts : String)
    (hts : parseTsMs ts.data ≠ none) :
    branchTime (mkBranchName major minor ts ++ "-" ++ Nat.repr n) = 0 := by
  obtain ⟨f, hf⟩ : ∃ f, parseTsFields ts.data = some f := by
    unfold parseTsMs at hts
    cases hp : parseTsFields ts.data with
    | none => rw [hp] at hts; exact absurd rfl hts
    | some f => exact ⟨f, rfl⟩
  have hlen : ts.data.length = 19 := parseTsFields_length hf
  have hnoslash : '/' ∉ ts.data := parseTsFields_no_slash hf
  have hv : "v".data = ['v'] := rfl
  have hdot : ".".data = ['.'] := rfl
  have hsl : "/".data = ['/'] := rfl
  have hdash : "-".data = ['-'] := rfl
  have hdata : (mkBranchName major minor ts ++ "-" ++ Nat.repr n).data
      = ('v' :: ((Nat.repr major).data ++ '.' :: (Nat.repr minor).data))
        ++ '/' :: (ts.data ++ '-' :: (Nat.repr n).data) := by
    unfold mkBranchName
    simp [String.data_append, hv, hdot, hsl, hdash]
  have hp1 : '/' ∉ ('v' :: ((Nat.repr major).data ++ '.' :: (Nat.repr minor).data)) := by
    intro hmem
    rcases List.mem_cons.mp hmem with h' | h'
    · exact absurd h' (by decide)
    · rcases List.mem_append.mp h' with h' | h'
      · exact repr_no_slash major h'
      · rcases List.mem_cons.mp h' with h' | h'
        · exact absurd h' (by decide)
        · exact repr_no_slash minor h'
  have hall : ∀ c ∈ ts.data, (!(c == '/')) = true := by
    intro c hc
    simp only [Bool.not_eq_true', beq_eq_false_iff_ne, ne_eq]
    intro hcc
    exact hnoslash (hcc ▸ hc)
  unfold branchTime
  rw [hdata, splitSlash_append _ _ hp1, List.getElem?_cons_succ,
    ← List.head?_eq_getElem?, splitSlash_head, takeWhile_append_all _ _ _ hall]
  have hseg : parseTsFields
      (ts.data ++ '-' :: List.takeWhile (fun c => !(c == '/')) (Nat.repr n).data) = none := by
    cases hp2 : parseTsFields
        (ts.data ++ '-' :: List.takeWhile (fun c => !(c == '/')) (Nat.repr n).data) with
    | none => rfl
    | some f2 =>
      exfalso
      have := parseTsFields_length hp2
      rw [List.length_append, hlen] at this
      simp at this
  simp [parseTsMs, hseg]

/-- C10 (implicit claim): a snapshot branch whose name carries the random
collision suffix, `v{major}.{minor}/{timestamp}-{n}`, is never selected by
`restoreLatestBackup` — strict parsing of its timestamp segment (format
`YYYY-MM-DD_HH-mm-ss`) fails on the suffix, so the branch is filtered out even
when it is the most recent backup. -/
theorem suffixed_branch_never_selected (branches : List String) (major minor n : Nat)
    (ts : String) (hts : parseTsMs ts.data ≠ none) :
    branchTime (mkBranchName major minor ts ++ "-" ++ Nat.repr n) = 0 ∧
      restoreLatestBackup branches
        ≠ .restored (mkBranchName major minor ts ++ "-" ++ Nat.repr n) := by
  have h0 := branchTime_suffixed major minor n ts hts
  refine ⟨h0, ?_⟩
  intro hres
  unfold restoreLatestBackup at hres
  cases hg : getLatestBackupBranch branches with
  | none => rw [hg] at hres; cases hres
  | some b =>
    rw [hg] at hres
    injection hres with hb
    subst hb
    have := (getLatest_spec branches _ hg).2.1
    rw [h0] at this
    exact absurd this (by decide)

/-- Witness for `suffixed_branch_never_selected`: with a valid concrete
timestamp, the suffixed branch is not selected even from a list containing only
it (and a plain branch). -/
theorem suffixed_branch_never_selected_witness :
    branchTime (mkBranchName 1 0 "2024-01-01_00-00-00" ++ "-" ++ Nat.repr 5) = 0 ∧
      restoreLatestBackup
          [mkBranchName 1 0 "2024-01-01_00-00-00" ++ "-" ++ Nat.repr 5,
           "v1.0/2023-01-01_00-00-00"]
        ≠ .restored (mkBranchName 1 0 "2024-01-01_00-00-00" ++ "-" ++ Nat.repr 5) :=
  suffixed_branch_never_selected
    [mkBranchName 1 0 "2024-01-01_00-00-00" ++ "-" ++ Nat.repr 5,
     "v1.0/2023-01-01_00-00-00"] 1 0 5 "2024-01-01_00-00-00" (by decide)
